import Mathlib

/-!
Shallow embedding of `include/jmonticelli/ring_buffer.hh` (class
`jmonticelli::ring_buffer<ValueType, Allocator>`), together with proofs of the
specification claims about it.

Modelling conventions:
* Pointers into the heap block `buffer_` are modelled as `Nat` offsets from
  `buffer_` (so `buffer_` itself is offset `0` and `buffer_end_` is
  `max_capacity_ - 1`, matching lines 62-65 of the source).
* The raw storage is a total function `Nat → α`: uninitialized memory holds an
  arbitrary (`default`) value, exactly as C++ uninitialized storage holds some
  bits.  `*ptr = v` is a pointwise function update.
* `std::size_t` arithmetic is modelled by `Nat`.  The constructor enforces
  `max_capacity_ < SIZE_MAX / 2` (line 52), and all index arithmetic performed
  by the class stays strictly below `2^64`, so `Nat` and `size_t` agree on
  every computation the class performs.
* Destructor invocations (`ptr->~ValueType()`) are recorded in a ghost field
  `destroyed`: the destroyed value is appended to the log.  This models the
  externally observable side effect of the destructor (the test suite's
  counter-wrapping element type) for a destructible `ValueType`.
* Functions that throw (`throw std::runtime_error(...)`) return
  `Except String _` carrying the exact message built by the source.
-/

namespace jmonticelli

set_option linter.unusedSectionVars false

/-- `std::numeric_limits<std::size_t>::max()` for the 64-bit `size_t` used by
the source (lines 52-55). -/
def SIZE_MAX : Nat := 2 ^ 64 - 1

/-- State of a `jmonticelli::ring_buffer<ValueType>` object (fields at lines
550-570 of the source).  `buffer_` is the storage block as a map from slot
offset to contents; `begin_ptr_`, `end_ptr_` are the offsets of the begin/end
cursors from `buffer_`; `destroyed` is a ghost log of the values on which the
element destructor has been invoked, in invocation order. -/
structure ring_buffer (α : Type) where
  max_capacity_ : Nat
  buffer_ : Nat → α
  begin_ptr_ : Nat
  end_ptr_ : Nat
  current_size_ : Nat
  destroyed : List α

variable {α : Type} [Inhabited α]

/-- `buffer_end_ = buffer_ + (max_capacity_ - 1)` (line 63): offset of the last
slot of the storage block; NOT a past-the-end pointer. -/
def buffer_end_ (s : ring_buffer α) : Nat :=
  s.max_capacity_ - 1

/-- `advance_ptr_left` (lines 389-397): step one slot left, wrapping from the
base of the block to `buffer_end_`. -/
def advance_ptr_left (s : ring_buffer α) (ptr : Nat) : Nat :=
  if ptr = 0 then buffer_end_ s else ptr - 1

/-- `advance_ptr_right` (lines 406-414): step one slot right, wrapping from
`buffer_end_` to the base of the block. -/
def advance_ptr_right (s : ring_buffer α) (ptr : Nat) : Nat :=
  if ptr = buffer_end_ s then 0 else ptr + 1

/-- `remove_advance_left`, destructible overload (lines 425-432): run the
destructor of the value at `ptr` (recorded in the ghost log) and return the
slot to the left.  (The non-destructible overload, lines 443-449, merely skips
the destructor call; the claims concern destructible element types.) -/
def remove_advance_left (s : ring_buffer α) (ptr : Nat) : ring_buffer α × Nat :=
  ({ s with destroyed := s.destroyed ++ [s.buffer_ ptr] }, advance_ptr_left s ptr)

/-- `remove_advance_right`, destructible overload (lines 460-467): run the
destructor of the value at `ptr` (recorded in the ghost log) and return the
slot to the right. -/
def remove_advance_right (s : ring_buffer α) (ptr : Nat) : ring_buffer α × Nat :=
  ({ s with destroyed := s.destroyed ++ [s.buffer_ ptr] }, advance_ptr_right s ptr)

/-- Pointwise store update: models `*ptr = v` on the storage block. -/
def writeSlot (f : Nat → α) (ptr : Nat) (v : α) : Nat → α :=
  fun q => if q = ptr then v else f q

/-- `add_back_uninitialized_element` (lines 486-504). -/
def add_back_uninitialized_element (s : ring_buffer α) : ring_buffer α :=
  let next_size := min (s.current_size_ + 1) s.max_capacity_
  let s1 := if 0 < s.current_size_ then
              { s with end_ptr_ := advance_ptr_right s s.end_ptr_ }
            else s
  if s1.current_size_ = next_size then
    let r := remove_advance_right s1 s1.begin_ptr_
    { r.1 with begin_ptr_ := r.2 }
  else
    { s1 with current_size_ := next_size }

/-- `add_front_uninitialized_element` (lines 506-524). -/
def add_front_uninitialized_element (s : ring_buffer α) : ring_buffer α :=
  let next_size := min (s.current_size_ + 1) s.max_capacity_
  let s1 := if 0 < s.current_size_ then
              { s with begin_ptr_ := advance_ptr_left s s.begin_ptr_ }
            else s
  if s1.current_size_ = next_size then
    let r := remove_advance_left s1 s1.end_ptr_
    { r.1 with end_ptr_ := r.2 }
  else
    { s1 with current_size_ := next_size }

/-- `push_back` (lines 99-103): make room at the back, then `*end_ptr_ = v`. -/
def push_back (s : ring_buffer α) (v : α) : ring_buffer α :=
  let s1 := add_back_uninitialized_element s
  { s1 with buffer_ := writeSlot s1.buffer_ s1.end_ptr_ v }

/-- `emplace_back` (lines 105-110): identical to `push_back` after the
temporary `ValueType(args...)` has been built. -/
def emplace_back (s : ring_buffer α) (v : α) : ring_buffer α :=
  let s1 := add_back_uninitialized_element s
  { s1 with buffer_ := writeSlot s1.buffer_ s1.end_ptr_ v }

/-- `push_front` (lines 112-116): make room at the front, then
`*begin_ptr_ = v`. -/
def push_front (s : ring_buffer α) (v : α) : ring_buffer α :=
  let s1 := add_front_uninitialized_element s
  { s1 with buffer_ := writeSlot s1.buffer_ s1.begin_ptr_ v }

/-- `emplace_front` (lines 118-123): identical to `push_front` after the
temporary has been built. -/
def emplace_front (s : ring_buffer α) (v : α) : ring_buffer α :=
  let s1 := add_front_uninitialized_element s
  { s1 with buffer_ := writeSlot s1.buffer_ s1.begin_ptr_ v }

/-- `assert_idx` (lines 364-370): throw iff `idx >= current_size_`. -/
def assert_idx (s : ring_buffer α) (idx : Nat) (calling_func : String) :
    Except String Unit :=
  if s.current_size_ ≤ idx then
    .error ("ring_buffer index out-of-bounds in " ++ calling_func)
  else
    .ok ()

/-- `unchecked_ptr_from_idx` (lines 374-380): slot offset of logical index
`idx`, namely `(begin_ptr_ - buffer_ + idx) % max_capacity_`. -/
def unchecked_ptr_from_idx (s : ring_buffer α) (idx : Nat) : Nat :=
  (s.begin_ptr_ + idx) % s.max_capacity_

/-- `at` (lines 125-135; the const and non-const overloads have identical
bodies): checked element access.  Named `atIdx` because `at` is reserved in
Lean. -/
def atIdx (s : ring_buffer α) (idx : Nat) : Except String α :=
  match assert_idx s idx "at" with
  | .error e => .error e
  | .ok _ => .ok (s.buffer_ (unchecked_ptr_from_idx s idx))

/-- `front` (lines 148-156): `at(0)`. -/
def front (s : ring_buffer α) : Except String α :=
  atIdx s 0

/-- `back` (lines 158-169): `at(current_size_ == 0 ? 0 : current_size_ - 1)`. -/
def back (s : ring_buffer α) : Except String α :=
  atIdx s (if s.current_size_ = 0 then 0 else s.current_size_ - 1)

/-- `pop_front` (lines 176-186).  NOTE: line 183 of the source reads
`begin_ptr_ = remove_advance_right();` — no argument is passed, so
template-argument deduction fails for both overloads of
`remove_advance_right` and the member cannot compile when instantiated.  The
evidently intended argument `begin_ptr_` (exactly as written at line 498) is
supplied here. -/
def pop_front (s : ring_buffer α) : Bool × ring_buffer α :=
  if s.current_size_ = 0 then
    (false, s)
  else
    let r := remove_advance_right s s.begin_ptr_
    (true, { r.1 with begin_ptr_ := r.2, current_size_ := s.current_size_ - 1 })

/-- `pop_back` (lines 193-203).  NOTE: line 200 of the source reads
`end_ptr_ = remove_advance_left();` — no argument is passed, so the member
cannot compile when instantiated.  The evidently intended argument `end_ptr_`
(exactly as written at line 518) is supplied here. -/
def pop_back (s : ring_buffer α) : Bool × ring_buffer α :=
  if s.current_size_ = 0 then
    (false, s)
  else
    let r := remove_advance_left s s.end_ptr_
    (true, { r.1 with end_ptr_ := r.2, current_size_ := s.current_size_ - 1 })

/-- `remove_elements`, destructible overload (lines 529-538): destroy the
element at every logical index `0, 1, ..., current_size_ - 1` in order (the
iterator loop dereferences with `unchecked_ptr_from_idx`). -/
def remove_elements (s : ring_buffer α) : ring_buffer α :=
  (List.range s.current_size_).foldl
    (fun t i => { t with destroyed := t.destroyed ++ [t.buffer_ (unchecked_ptr_from_idx t i)] })
    s

/-- `clear` (lines 208-215): destroy all live elements, reset size to 0 and
both cursors to the base of the block. -/
def clear (s : ring_buffer α) : ring_buffer α :=
  let s1 := remove_elements s
  { s1 with current_size_ := 0, begin_ptr_ := 0, end_ptr_ := 0 }

/-- `size` (lines 220-223). -/
def size (s : ring_buffer α) : Nat :=
  s.current_size_

/-- `capacity` (lines 228-231). -/
def capacity (s : ring_buffer α) : Nat :=
  s.max_capacity_

/-- The object produced by a successful run of the constructor (lines 62-65):
freshly allocated (uninitialized) storage, both cursors at the base of the
block, size 0, and an empty destructor log. -/
def init (α : Type) [Inhabited α] (max_capacity : Nat) : ring_buffer α :=
  { max_capacity_ := max_capacity
    buffer_ := fun _ => default
    begin_ptr_ := 0
    end_ptr_ := 0
    current_size_ := 0
    destroyed := [] }

/-- The argument validation performed by the constructor (lines 44-60).  The
`sizeof(ValueType) == 0` check at line 57 is omitted: `sizeof` of a complete
C++ type is never 0, so that branch is statically dead.  Allocation is modelled
as always succeeding (the claim conditions on successful allocation;
`std::allocator::allocate` throws rather than returning null, so the
`nullptr == buffer_` check at line 66 is also dead). -/
def ctor_check (max_capacity : Nat) : Except String Unit :=
  if max_capacity = 0 then
    .error "ring_buffer: invalid size 0 requested"
  else if SIZE_MAX / 2 ≤ max_capacity then
    .error "ring_buffer: exceeded limit std::size_t max / 2"
  else
    .ok ()

/-- `ring_buffer(max_capacity, allocator)`, the main constructor (lines
38-70): validate the capacity, then produce the fresh empty object. -/
def ring_buffer_new (α : Type) [Inhabited α] (max_capacity : Nat) :
    Except String (ring_buffer α) :=
  match ctor_check max_capacity with
  | .error e => .error e
  | .ok _ => .ok (init α max_capacity)

/-- Logical (front-to-back) contents of the buffer: the value of slot
`(begin_ptr_ + i) % max_capacity_` for each logical index `i < current_size_`.
This is what the test suite observes through `at`/iteration. -/
def toList (s : ring_buffer α) : List α :=
  (List.range s.current_size_).map fun i => s.buffer_ (unchecked_ptr_from_idx s i)

/-- The copy constructor (lines 72-92): allocate a fresh block of the same
capacity with both cursors at its base and size 0, then
`std::copy(other.cbegin(), other.cend(), std::back_inserter(*this))`, i.e.
`push_back` every element of `other` front-to-back.  (The `max_capacity_ == 0`
re-check at line 77 cannot fire for a source object that was itself
constructed, since the main constructor rejects capacity 0.) -/
def ring_buffer_copy (other : ring_buffer α) : ring_buffer α :=
  (toList other).foldl push_back (init α other.max_capacity_)

/-- `~ring_buffer` (lines 94-97): the destructor only deallocates the storage
block — it invokes no element destructor.  Its observable effect on the
destructor log is therefore nil; this function returns the complete log of
destructor invocations over the object's lifetime. -/
def ring_buffer_destructor (s : ring_buffer α) : List α :=
  s.destroyed

/-- `internal_Iterator::operator*`, mutable overload (lines 294-299): delegates
to the container's checked `at`.  An iterator is its logical index `idx_`
together with the container it points into. -/
def iter_star (s : ring_buffer α) (idx : Nat) : Except String α :=
  atIdx s idx

/-- `internal_Iterator::operator*`, const overload (lines 301-304): delegates
to the container's checked `at`. -/
def iter_star_const (s : ring_buffer α) (idx : Nat) : Except String α :=
  atIdx s idx

/-- `internal_Iterator::operator->`, mutable overload (lines 306-311): returns
`container_->unchecked_ptr_from_idx(idx_)` directly — no bounds check ever
fails, so the result is always the contents of the translated slot. -/
def iter_arrow (s : ring_buffer α) (idx : Nat) : Except String α :=
  .ok (s.buffer_ (unchecked_ptr_from_idx s idx))

/-- `internal_Iterator::operator->`, const overload (lines 313-316): returns
`container_->unchecked_ptr_from_idx(idx_)` directly — no bounds check. -/
def iter_arrow_const (s : ring_buffer α) (idx : Nat) : Except String α :=
  .ok (s.buffer_ (unchecked_ptr_from_idx s idx))

/-- `begin()` / `cbegin()` (lines 330-341): iterator at logical index 0. -/
def begin_it (_s : ring_buffer α) : Nat :=
  0

/-- `end()` / `cend()` (lines 347-359): iterator at logical index
`current_size_` (the one-past-end sentinel). -/
def end_it (s : ring_buffer α) : Nat :=
  s.current_size_

/-- The public mutating operations of the container, as an alphabet for
describing states reachable from construction. -/
inductive Op (α : Type) where
  | push_back (v : α)
  | emplace_back (v : α)
  | push_front (v : α)
  | emplace_front (v : α)
  | pop_front
  | pop_back
  | clear

/-- Whether an operation is one of the two pop operations (which, as written
in the source, do not compile when instantiated; see `pop_front`). -/
def Op.isPop : Op α → Bool
  | .pop_front => true
  | .pop_back => true
  | _ => false

/-- Apply one public mutating operation to the container state. -/
def applyOp (s : ring_buffer α) : Op α → ring_buffer α
  | .push_back v => push_back s v
  | .emplace_back v => emplace_back s v
  | .push_front v => push_front s v
  | .emplace_front v => emplace_front s v
  | .pop_front => (pop_front s).2
  | .pop_back => (pop_back s).2
  | .clear => clear s

/-- Run a sequence of public mutating operations from a starting state. -/
def run (s : ring_buffer α) (ops : List (Op α)) : ring_buffer α :=
  ops.foldl applyOp s

/-- Walk `k` slots rightward from slot `p`, with wraparound, using the
container's own stepping function `advance_ptr_right`. -/
def walk_right (s : ring_buffer α) (p k : Nat) : Nat :=
  (advance_ptr_right s)^[k] p

/-- Basic well-formedness of a container state: positive capacity, cursors
inside the block, size at most capacity.  Every state reachable from
construction satisfies this. -/
def SizeInv (s : ring_buffer α) : Prop :=
  1 ≤ s.max_capacity_ ∧
  s.begin_ptr_ < s.max_capacity_ ∧
  s.end_ptr_ < s.max_capacity_ ∧
  s.current_size_ ≤ s.max_capacity_

/-- Full cursor discipline: `SizeInv` plus the begin/end cursor relation.
When the buffer is non-empty the end cursor sits `size - 1` slots to the right
of the begin cursor (both cursors are inclusive); when it is empty the two
cursors coincide.  This holds in every state reachable from construction by
pushes, emplaces and `clear` (the pop members do not compile as written; with
their evident intended repair a pop to emptiness separates the cursors, which
is why the empty-buffer clause is stated for the pop-free fragment). -/
def CursorInv (s : ring_buffer α) : Prop :=
  SizeInv s ∧
  (s.current_size_ = 0 → s.begin_ptr_ = s.end_ptr_) ∧
  (1 ≤ s.current_size_ →
    s.end_ptr_ = (s.begin_ptr_ + (s.current_size_ - 1)) % s.max_capacity_)

instance : DecidablePred (SizeInv (α := α)) := fun _ =>
  inferInstanceAs (Decidable (_ ∧ _ ∧ _ ∧ _))

instance : DecidablePred (CursorInv (α := α)) := fun _ =>
  inferInstanceAs (Decidable (_ ∧ _ ∧ _))

/-! ### Arithmetic facts about the cursor steppers -/

theorem advance_ptr_right_eq_mod (s : ring_buffer α) {p : Nat}
    (h1 : 1 ≤ s.max_capacity_) (hp : p < s.max_capacity_) :
    advance_ptr_right s p = (p + 1) % s.max_capacity_ := by
  unfold advance_ptr_right buffer_end_
  by_cases hlast : p = s.max_capacity_ - 1
  · subst hlast
    rw [if_pos rfl]
    have : s.max_capacity_ - 1 + 1 = s.max_capacity_ := by omega
    rw [this, Nat.mod_self]
  · rw [if_neg hlast, Nat.mod_eq_of_lt (by omega)]

theorem advance_ptr_left_eq_mod (s : ring_buffer α) {p : Nat}
    (h1 : 1 ≤ s.max_capacity_) (hp : p < s.max_capacity_) :
    advance_ptr_left s p = (p + (s.max_capacity_ - 1)) % s.max_capacity_ := by
  unfold advance_ptr_left buffer_end_
  by_cases h0 : p = 0
  · subst h0
    rw [if_pos rfl, Nat.zero_add, Nat.mod_eq_of_lt (by omega)]
  · rw [if_neg h0]
    have : p + (s.max_capacity_ - 1) = (p - 1) + s.max_capacity_ := by omega
    rw [this, Nat.add_mod_right, Nat.mod_eq_of_lt (by omega)]

theorem advance_ptr_right_lt (s : ring_buffer α) {p : Nat}
    (h1 : 1 ≤ s.max_capacity_) (hp : p < s.max_capacity_) :
    advance_ptr_right s p < s.max_capacity_ := by
  rw [advance_ptr_right_eq_mod s h1 hp]
  exact Nat.mod_lt _ (by omega)

theorem advance_ptr_left_lt (s : ring_buffer α) {p : Nat}
    (h1 : 1 ≤ s.max_capacity_) (hp : p < s.max_capacity_) :
    advance_ptr_left s p < s.max_capacity_ := by
  rw [advance_ptr_left_eq_mod s h1 hp]
  exact Nat.mod_lt _ (by omega)

/-- Distinct in-range logical offsets land in distinct physical slots. -/
theorem slot_inj (cap b i j : Nat) (hi : i < cap) (hj : j < cap)
    (h : (b + i) % cap = (b + j) % cap) : i = j := by
  have hmod : i % cap = j % cap := Nat.ModEq.add_left_cancel' b h
  rwa [Nat.mod_eq_of_lt hi, Nat.mod_eq_of_lt hj] at hmod

/-! ### Field bookkeeping for the mutators -/

theorem add_back_fields (s : ring_buffer α) :
    (add_back_uninitialized_element s).max_capacity_ = s.max_capacity_ ∧
    (add_back_uninitialized_element s).buffer_ = s.buffer_ := by
  unfold add_back_uninitialized_element remove_advance_right
  dsimp only
  split <;> split <;> exact ⟨rfl, rfl⟩

theorem add_front_fields (s : ring_buffer α) :
    (add_front_uninitialized_element s).max_capacity_ = s.max_capacity_ ∧
    (add_front_uninitialized_element s).buffer_ = s.buffer_ := by
  unfold add_front_uninitialized_element remove_advance_left
  dsimp only
  split <;> split <;> exact ⟨rfl, rfl⟩

/-! ### Case characterizations of `add_back` / `add_front` -/

theorem add_back_zero (s : ring_buffer α) (hz : s.current_size_ = 0)
    (h1 : 1 ≤ s.max_capacity_) :
    add_back_uninitialized_element s = { s with current_size_ := 1 } := by
  have hm1 : min 1 s.max_capacity_ = 1 := Nat.min_eq_left (by omega)
  simp [add_back_uninitialized_element, hm1, hz]

theorem add_back_grow (s : ring_buffer α) (hpos : 0 < s.current_size_)
    (hlt : s.current_size_ < s.max_capacity_) :
    add_back_uninitialized_element s =
      { s with end_ptr_ := advance_ptr_right s s.end_ptr_,
               current_size_ := s.current_size_ + 1 } := by
  have hmin : min (s.current_size_ + 1) s.max_capacity_ = s.current_size_ + 1 :=
    Nat.min_eq_left (by omega)
  simp [add_back_uninitialized_element, hmin, hpos]

theorem add_back_full (s : ring_buffer α) (hfull : s.current_size_ = s.max_capacity_)
    (h1 : 1 ≤ s.max_capacity_) :
    add_back_uninitialized_element s =
      { s with end_ptr_ := advance_ptr_right s s.end_ptr_,
               begin_ptr_ := advance_ptr_right s s.begin_ptr_,
               destroyed := s.destroyed ++ [s.buffer_ s.begin_ptr_] } := by
  have hminc : min (s.max_capacity_ + 1) s.max_capacity_ = s.max_capacity_ :=
    Nat.min_eq_right (by omega)
  have hcap : 0 < s.max_capacity_ := h1
  have hadv : ∀ p : Nat,
      advance_ptr_right
        { s with end_ptr_ := advance_ptr_right s s.end_ptr_,
                 current_size_ := s.max_capacity_ } p =
      advance_ptr_right s p := fun _ => rfl
  simp [add_back_uninitialized_element, remove_advance_right, hminc, hfull, hcap, hadv]

theorem add_front_zero (s : ring_buffer α) (hz : s.current_size_ = 0)
    (h1 : 1 ≤ s.max_capacity_) :
    add_front_uninitialized_element s = { s with current_size_ := 1 } := by
  have hm1 : min 1 s.max_capacity_ = 1 := Nat.min_eq_left (by omega)
  simp [add_front_uninitialized_element, hm1, hz]

theorem add_front_grow (s : ring_buffer α) (hpos : 0 < s.current_size_)
    (hlt : s.current_size_ < s.max_capacity_) :
    add_front_uninitialized_element s =
      { s with begin_ptr_ := advance_ptr_left s s.begin_ptr_,
               current_size_ := s.current_size_ + 1 } := by
  have hmin : min (s.current_size_ + 1) s.max_capacity_ = s.current_size_ + 1 :=
    Nat.min_eq_left (by omega)
  simp [add_front_uninitialized_element, hmin, hpos]

theorem add_front_full (s : ring_buffer α) (hfull : s.current_size_ = s.max_capacity_)
    (h1 : 1 ≤ s.max_capacity_) :
    add_front_uninitialized_element s =
      { s with begin_ptr_ := advance_ptr_left s s.begin_ptr_,
               end_ptr_ := advance_ptr_left s s.end_ptr_,
               destroyed := s.destroyed ++ [s.buffer_ s.end_ptr_] } := by
  have hminc : min (s.max_capacity_ + 1) s.max_capacity_ = s.max_capacity_ :=
    Nat.min_eq_right (by omega)
  have hcap : 0 < s.max_capacity_ := h1
  have hadv : ∀ p : Nat,
      advance_ptr_left
        { s with begin_ptr_ := advance_ptr_left s s.begin_ptr_,
                 current_size_ := s.max_capacity_ } p =
      advance_ptr_left s p := fun _ => rfl
  simp [add_front_uninitialized_element, remove_advance_left, hminc, hfull, hcap, hadv]

/-! ### Explicit states after the public mutators -/

theorem push_back_zero (s : ring_buffer α) (v : α) (hz : s.current_size_ = 0)
    (h1 : 1 ≤ s.max_capacity_) :
    push_back s v =
      { s with buffer_ := writeSlot s.buffer_ s.end_ptr_ v, current_size_ := 1 } := by
  unfold push_back
  rw [add_back_zero s hz h1]

theorem push_back_grow (s : ring_buffer α) (v : α) (hpos : 0 < s.current_size_)
    (hlt : s.current_size_ < s.max_capacity_) :
    push_back s v =
      { s with buffer_ := writeSlot s.buffer_ (advance_ptr_right s s.end_ptr_) v,
               end_ptr_ := advance_ptr_right s s.end_ptr_,
               current_size_ := s.current_size_ + 1 } := by
  unfold push_back
  rw [add_back_grow s hpos hlt]

theorem push_back_full (s : ring_buffer α) (v : α)
    (hfull : s.current_size_ = s.max_capacity_) (h1 : 1 ≤ s.max_capacity_) :
    push_back s v =
      { s with buffer_ := writeSlot s.buffer_ (advance_ptr_right s s.end_ptr_) v,
               end_ptr_ := advance_ptr_right s s.end_ptr_,
               begin_ptr_ := advance_ptr_right s s.begin_ptr_,
               destroyed := s.destroyed ++ [s.buffer_ s.begin_ptr_] } := by
  unfold push_back
  rw [add_back_full s hfull h1]

theorem push_front_zero (s : ring_buffer α) (v : α) (hz : s.current_size_ = 0)
    (h1 : 1 ≤ s.max_capacity_) :
    push_front s v =
      { s with buffer_ := writeSlot s.buffer_ s.begin_ptr_ v, current_size_ := 1 } := by
  unfold push_front
  rw [add_front_zero s hz h1]

theorem push_front_grow (s : ring_buffer α) (v : α) (hpos : 0 < s.current_size_)
    (hlt : s.current_size_ < s.max_capacity_) :
    push_front s v =
      { s with buffer_ := writeSlot s.buffer_ (advance_ptr_left s s.begin_ptr_) v,
               begin_ptr_ := advance_ptr_left s s.begin_ptr_,
               current_size_ := s.current_size_ + 1 } := by
  unfold push_front
  rw [add_front_grow s hpos hlt]

theorem push_front_full (s : ring_buffer α) (v : α)
    (hfull : s.current_size_ = s.max_capacity_) (h1 : 1 ≤ s.max_capacity_) :
    push_front s v =
      { s with buffer_ := writeSlot s.buffer_ (advance_ptr_left s s.begin_ptr_) v,
               begin_ptr_ := advance_ptr_left s s.begin_ptr_,
               end_ptr_ := advance_ptr_left s s.end_ptr_,
               destroyed := s.destroyed ++ [s.buffer_ s.end_ptr_] } := by
  unfold push_front
  rw [add_front_full s hfull h1]

theorem pop_front_zero (s : ring_buffer α) (hz : s.current_size_ = 0) :
    pop_front s = (false, s) := by
  unfold pop_front
  rw [if_pos hz]

theorem pop_front_pos (s : ring_buffer α) (hpos : 0 < s.current_size_) :
    pop_front s =
      (true, { s with begin_ptr_ := advance_ptr_right s s.begin_ptr_,
                      current_size_ := s.current_size_ - 1,
                      destroyed := s.destroyed ++ [s.buffer_ s.begin_ptr_] }) := by
  unfold pop_front remove_advance_right
  rw [if_neg (by omega)]

theorem pop_back_zero (s : ring_buffer α) (hz : s.current_size_ = 0) :
    pop_back s = (false, s) := by
  unfold pop_back
  rw [if_pos hz]

theorem pop_back_pos (s : ring_buffer α) (hpos : 0 < s.current_size_) :
    pop_back s =
      (true, { s with end_ptr_ := advance_ptr_left s s.end_ptr_,
                      current_size_ := s.current_size_ - 1,
                      destroyed := s.destroyed ++ [s.buffer_ s.end_ptr_] }) := by
  unfold pop_back remove_advance_left
  rw [if_neg (by omega)]

theorem remove_elements_fields (s : ring_buffer α) :
    (remove_elements s).max_capacity_ = s.max_capacity_ ∧
    (remove_elements s).buffer_ = s.buffer_ ∧
    (remove_elements s).begin_ptr_ = s.begin_ptr_ ∧
    (remove_elements s).end_ptr_ = s.end_ptr_ ∧
    (remove_elements s).current_size_ = s.current_size_ := by
  unfold remove_elements
  generalize List.range s.current_size_ = l
  induction l generalizing s with
  | nil => exact ⟨rfl, rfl, rfl, rfl, rfl⟩
  | cons i l ih =>
    simpa using ih { s with destroyed := s.destroyed ++ [s.buffer_ (unchecked_ptr_from_idx s i)] }

theorem clear_fields (s : ring_buffer α) :
    (clear s).max_capacity_ = s.max_capacity_ ∧
    (clear s).buffer_ = s.buffer_ ∧
    (clear s).begin_ptr_ = 0 ∧
    (clear s).end_ptr_ = 0 ∧
    (clear s).current_size_ = 0 := by
  obtain ⟨h1, h2, _, _, _⟩ := remove_elements_fields s
  exact ⟨h1, h2, rfl, rfl, rfl⟩

/-! ### Preservation of `SizeInv` -/

theorem sizeInv_push_back (s : ring_buffer α) (v : α) (h : SizeInv s) :
    SizeInv (push_back s v) := by
  obtain ⟨h1, hb, he, hsc⟩ := h
  rcases Nat.lt_or_ge s.current_size_ s.max_capacity_ with hlt | hge
  · rcases Nat.eq_zero_or_pos s.current_size_ with hz | hpos
    · rw [push_back_zero s v hz h1]
      exact ⟨h1, hb, he, h1⟩
    · rw [push_back_grow s v hpos hlt]
      exact ⟨h1, hb, advance_ptr_right_lt s h1 he, hlt⟩
  · have hfull : s.current_size_ = s.max_capacity_ := by omega
    rw [push_back_full s v hfull h1]
    exact ⟨h1, advance_ptr_right_lt s h1 hb, advance_ptr_right_lt s h1 he, hsc⟩

theorem sizeInv_push_front (s : ring_buffer α) (v : α) (h : SizeInv s) :
    SizeInv (push_front s v) := by
  obtain ⟨h1, hb, he, hsc⟩ := h
  rcases Nat.lt_or_ge s.current_size_ s.max_capacity_ with hlt | hge
  · rcases Nat.eq_zero_or_pos s.current_size_ with hz | hpos
    · rw [push_front_zero s v hz h1]
      exact ⟨h1, hb, he, h1⟩
    · rw [push_front_grow s v hpos hlt]
      exact ⟨h1, advance_ptr_left_lt s h1 hb, he, hlt⟩
  · have hfull : s.current_size_ = s.max_capacity_ := by omega
    rw [push_front_full s v hfull h1]
    exact ⟨h1, advance_ptr_left_lt s h1 hb, advance_ptr_left_lt s h1 he, hsc⟩

theorem sizeInv_pop_front (s : ring_buffer α) (h : SizeInv s) :
    SizeInv (pop_front s).2 := by
  obtain ⟨h1, hb, he, hsc⟩ := h
  rcases Nat.eq_zero_or_pos s.current_size_ with hz | hpos
  · rw [pop_front_zero s hz]
    exact ⟨h1, hb, he, hsc⟩
  · rw [pop_front_pos s hpos]
    exact ⟨h1, advance_ptr_right_lt s h1 hb, he,
           Nat.le_trans (Nat.sub_le s.current_size_ 1) hsc⟩

theorem sizeInv_pop_back (s : ring_buffer α) (h : SizeInv s) :
    SizeInv (pop_back s).2 := by
  obtain ⟨h1, hb, he, hsc⟩ := h
  rcases Nat.eq_zero_or_pos s.current_size_ with hz | hpos
  · rw [pop_back_zero s hz]
    exact ⟨h1, hb, he, hsc⟩
  · rw [pop_back_pos s hpos]
    exact ⟨h1, hb, advance_ptr_left_lt s h1 he,
           Nat.le_trans (Nat.sub_le s.current_size_ 1) hsc⟩

theorem sizeInv_clear (s : ring_buffer α) (h : SizeInv s) :
    SizeInv (clear s) := by
  obtain ⟨h1, hb, he, hsc⟩ := h
  obtain ⟨hm, _, hbp, hep, hcs⟩ := clear_fields s
  refine ⟨?_, ?_, ?_, ?_⟩
  · rw [hm]; exact h1
  · rw [hbp, hm]; omega
  · rw [hep, hm]; omega
  · rw [hcs]; omega

theorem emplace_back_eq_push_back (s : ring_buffer α) (v : α) :
    emplace_back s v = push_back s v := rfl

theorem emplace_front_eq_push_front (s : ring_buffer α) (v : α) :
    emplace_front s v = push_front s v := rfl

theorem sizeInv_applyOp (s : ring_buffer α) (op : Op α) (h : SizeInv s) :
    SizeInv (applyOp s op) := by
  cases op with
  | push_back v => exact sizeInv_push_back s v h
  | emplace_back v =>
    show SizeInv (emplace_back s v)
    rw [emplace_back_eq_push_back]
    exact sizeInv_push_back s v h
  | push_front v => exact sizeInv_push_front s v h
  | emplace_front v =>
    show SizeInv (emplace_front s v)
    rw [emplace_front_eq_push_front]
    exact sizeInv_push_front s v h
  | pop_front => exact sizeInv_pop_front s h
  | pop_back => exact sizeInv_pop_back s h
  | clear => exact sizeInv_clear s h

theorem sizeInv_run (s : ring_buffer α) (ops : List (Op α)) (h : SizeInv s) :
    SizeInv (run s ops) := by
  induction ops generalizing s with
  | nil => exact h
  | cons op ops ih => exact ih (applyOp s op) (sizeInv_applyOp s op h)

theorem sizeInv_init (h1 : 1 ≤ cap) : SizeInv (init α cap) :=
  ⟨h1, h1, h1, by simp [init]⟩

/-! ### Preservation of `CursorInv` under pushes, emplaces and `clear` -/

theorem cursorInv_push_back (s : ring_buffer α) (v : α) (h : CursorInv s) :
    CursorInv (push_back s v) := by
  obtain ⟨⟨h1, hb, he, hsc⟩, hz0, hpos0⟩ := h
  rcases Nat.lt_or_ge s.current_size_ s.max_capacity_ with hlt | hge
  · rcases Nat.eq_zero_or_pos s.current_size_ with hz | hpos
    · rw [push_back_zero s v hz h1]
      refine ⟨⟨h1, hb, he, h1⟩, fun hc => absurd hc one_ne_zero, fun _ => ?_⟩
      show s.end_ptr_ = (s.begin_ptr_ + (1 - 1)) % s.max_capacity_
      rw [Nat.sub_self, Nat.add_zero, Nat.mod_eq_of_lt hb]
      exact (hz0 hz).symm
    · rw [push_back_grow s v hpos hlt]
      refine ⟨⟨h1, hb, advance_ptr_right_lt s h1 he, hlt⟩,
              fun hc => absurd hc (Nat.succ_ne_zero _), fun _ => ?_⟩
      show advance_ptr_right s s.end_ptr_ =
        (s.begin_ptr_ + (s.current_size_ + 1 - 1)) % s.max_capacity_
      rw [advance_ptr_right_eq_mod s h1 he, hpos0 hpos, Nat.mod_add_mod]
      congr 1
      omega
  · have hfull : s.current_size_ = s.max_capacity_ := by omega
    have hpos : 0 < s.current_size_ := by omega
    rw [push_back_full s v hfull h1]
    refine ⟨⟨h1, advance_ptr_right_lt s h1 hb, advance_ptr_right_lt s h1 he, hsc⟩,
            fun hc => absurd (show s.current_size_ = 0 from hc) (by omega), fun _ => ?_⟩
    show advance_ptr_right s s.end_ptr_ =
      (advance_ptr_right s s.begin_ptr_ + (s.current_size_ - 1)) % s.max_capacity_
    rw [advance_ptr_right_eq_mod s h1 he, advance_ptr_right_eq_mod s h1 hb,
        hpos0 hpos, Nat.mod_add_mod, Nat.mod_add_mod]
    congr 1
    omega

theorem cursorInv_push_front (s : ring_buffer α) (v : α) (h : CursorInv s) :
    CursorInv (push_front s v) := by
  obtain ⟨⟨h1, hb, he, hsc⟩, hz0, hpos0⟩ := h
  rcases Nat.lt_or_ge s.current_size_ s.max_capacity_ with hlt | hge
  · rcases Nat.eq_zero_or_pos s.current_size_ with hz | hpos
    · rw [push_front_zero s v hz h1]
      refine ⟨⟨h1, hb, he, h1⟩, fun hc => absurd hc one_ne_zero, fun _ => ?_⟩
      show s.end_ptr_ = (s.begin_ptr_ + (1 - 1)) % s.max_capacity_
      rw [Nat.sub_self, Nat.add_zero, Nat.mod_eq_of_lt hb]
      exact (hz0 hz).symm
    · rw [push_front_grow s v hpos hlt]
      refine ⟨⟨h1, advance_ptr_left_lt s h1 hb, he, hlt⟩,
              fun hc => absurd hc (Nat.succ_ne_zero _), fun _ => ?_⟩
      show s.end_ptr_ =
        (advance_ptr_left s s.begin_ptr_ + (s.current_size_ + 1 - 1)) % s.max_capacity_
      rw [advance_ptr_left_eq_mod s h1 hb, Nat.mod_add_mod, hpos0 hpos]
      have harith : s.begin_ptr_ + (s.max_capacity_ - 1) + (s.current_size_ + 1 - 1) =
          s.begin_ptr_ + (s.current_size_ - 1) + s.max_capacity_ := by omega
      rw [harith, Nat.add_mod_right]
  · have hfull : s.current_size_ = s.max_capacity_ := by omega
    have hpos : 0 < s.current_size_ := by omega
    rw [push_front_full s v hfull h1]
    refine ⟨⟨h1, advance_ptr_left_lt s h1 hb, advance_ptr_left_lt s h1 he, hsc⟩,
            fun hc => absurd (show s.current_size_ = 0 from hc) (by omega), fun _ => ?_⟩
    show advance_ptr_left s s.end_ptr_ =
      (advance_ptr_left s s.begin_ptr_ + (s.current_size_ - 1)) % s.max_capacity_
    rw [advance_ptr_left_eq_mod s h1 he, advance_ptr_left_eq_mod s h1 hb,
        Nat.mod_add_mod, hpos0 hpos, Nat.mod_add_mod]
    congr 1
    omega

theorem cursorInv_clear (s : ring_buffer α) (h : CursorInv s) :
    CursorInv (clear s) := by
  have hs := sizeInv_clear s h.1
  obtain ⟨hm, _, hbp, hep, hcs⟩ := clear_fields s
  refine ⟨hs, fun _ => ?_, fun hcontra => ?_⟩
  · rw [hbp, hep]
  · rw [hcs] at hcontra
    omega

theorem cursorInv_init {cap : Nat} (h1 : 1 ≤ cap) : CursorInv (init α cap) :=
  ⟨sizeInv_init h1, fun _ => rfl,
   fun hc => absurd (show (1 : Nat) ≤ 0 from hc) (by omega)⟩

theorem cursorInv_applyOp (s : ring_buffer α) (op : Op α) (h : CursorInv s)
    (hop : op.isPop = false) : CursorInv (applyOp s op) := by
  cases op with
  | push_back v => exact cursorInv_push_back s v h
  | emplace_back v =>
    show CursorInv (emplace_back s v)
    rw [emplace_back_eq_push_back]
    exact cursorInv_push_back s v h
  | push_front v => exact cursorInv_push_front s v h
  | emplace_front v =>
    show CursorInv (emplace_front s v)
    rw [emplace_front_eq_push_front]
    exact cursorInv_push_front s v h
  | pop_front => simp [Op.isPop] at hop
  | pop_back => simp [Op.isPop] at hop
  | clear => exact cursorInv_clear s h

theorem cursorInv_run (s : ring_buffer α) (ops : List (Op α)) (h : CursorInv s)
    (hops : ops.all (fun op => !op.isPop) = true) : CursorInv (run s ops) := by
  induction ops generalizing s with
  | nil => exact h
  | cons op ops ih =>
    simp only [List.all_cons, Bool.and_eq_true, Bool.not_eq_true'] at hops
    exact ih (applyOp s op) (cursorInv_applyOp s op h hops.1) hops.2

/-! ### Logical contents after `push_back` -/

theorem toList_length (s : ring_buffer α) : (toList s).length = s.current_size_ := by
  simp [toList]

theorem toList_of_zero (s : ring_buffer α) (hz : s.current_size_ = 0) :
    toList s = [] := by
  simp [toList, hz]

theorem toList_push_back_nonfull (s : ring_buffer α) (v : α) (h : CursorInv s)
    (hlt : s.current_size_ < s.max_capacity_) :
    toList (push_back s v) = toList s ++ [v] := by
  obtain ⟨⟨h1, hb, he, hsc⟩, hz0, hpos0⟩ := h
  rcases Nat.eq_zero_or_pos s.current_size_ with hz | hpos
  · have hbe := hz0 hz
    rw [push_back_zero s v hz h1, toList_of_zero s hz]
    show (List.range 1).map
        (fun i => writeSlot s.buffer_ s.end_ptr_ v ((s.begin_ptr_ + i) % s.max_capacity_)) =
      [] ++ [v]
    rw [show List.range 1 = [0] from rfl]
    simp [writeSlot, hbe, Nat.mod_eq_of_lt he]
  · have hend : advance_ptr_right s s.end_ptr_ =
        (s.begin_ptr_ + s.current_size_) % s.max_capacity_ := by
      rw [advance_ptr_right_eq_mod s h1 he, hpos0 hpos, Nat.mod_add_mod]
      congr 1
      omega
    rw [push_back_grow s v hpos hlt, hend]
    show (List.range (s.current_size_ + 1)).map
        (fun i => writeSlot s.buffer_ ((s.begin_ptr_ + s.current_size_) % s.max_capacity_) v
          ((s.begin_ptr_ + i) % s.max_capacity_)) =
      toList s ++ [v]
    rw [List.range_succ, List.map_append]
    congr 1
    · apply List.map_congr_left
      intro i hi
      have hilt : i < s.current_size_ := List.mem_range.mp hi
      show writeSlot s.buffer_ ((s.begin_ptr_ + s.current_size_) % s.max_capacity_) v
          ((s.begin_ptr_ + i) % s.max_capacity_) =
        s.buffer_ (unchecked_ptr_from_idx s i)
      unfold writeSlot unchecked_ptr_from_idx
      rw [if_neg]
      intro hcontra
      have := slot_inj s.max_capacity_ s.begin_ptr_ i s.current_size_
        (by omega) (by omega) hcontra
      omega
    · show [writeSlot s.buffer_ ((s.begin_ptr_ + s.current_size_) % s.max_capacity_) v
          ((s.begin_ptr_ + s.current_size_) % s.max_capacity_)] = [v]
      rw [writeSlot, if_pos rfl]

theorem toList_push_back_full (s : ring_buffer α) (v : α) (h : CursorInv s)
    (hfull : s.current_size_ = s.max_capacity_) :
    toList (push_back s v) = (toList s).drop 1 ++ [v] := by
  obtain ⟨⟨h1, hb, he, hsc⟩, hz0, hpos0⟩ := h
  have hpos : 0 < s.current_size_ := by omega
  have hE : advance_ptr_right s s.end_ptr_ = s.begin_ptr_ := by
    rw [advance_ptr_right_eq_mod s h1 he, hpos0 hpos, Nat.mod_add_mod]
    have harith : s.begin_ptr_ + (s.current_size_ - 1) + 1 =
        s.begin_ptr_ + s.max_capacity_ := by omega
    rw [harith, Nat.add_mod_right, Nat.mod_eq_of_lt hb]
  obtain ⟨n, hn⟩ : ∃ n, s.current_size_ = n + 1 := ⟨s.current_size_ - 1, by omega⟩
  have hncap : s.max_capacity_ = n + 1 := by omega
  rw [push_back_full s v hfull h1, hE, advance_ptr_right_eq_mod s h1 hb]
  show (List.range s.current_size_).map
      (fun i => writeSlot s.buffer_ s.begin_ptr_ v
        (((s.begin_ptr_ + 1) % s.max_capacity_ + i) % s.max_capacity_)) =
    ((List.range s.current_size_).map
      (fun i => s.buffer_ ((s.begin_ptr_ + i) % s.max_capacity_))).drop 1 ++ [v]
  rw [hn]
  nth_rewrite 2 [List.range_succ_eq_map]
  nth_rewrite 1 [List.range_succ]
  simp only [List.map_append, List.map_cons, List.map_map, List.drop_succ_cons,
             List.drop_zero]
  congr 1
  · apply List.map_congr_left
    intro i hi
    have hilt : i < n := List.mem_range.mp hi
    show writeSlot s.buffer_ s.begin_ptr_ v
        (((s.begin_ptr_ + 1) % s.max_capacity_ + i) % s.max_capacity_) =
      s.buffer_ ((s.begin_ptr_ + Nat.succ i) % s.max_capacity_)
    unfold writeSlot
    rw [Nat.mod_add_mod, if_neg]
    · rw [show s.begin_ptr_ + 1 + i = s.begin_ptr_ + Nat.succ i from by omega]
    · intro hcontra
      rw [Nat.add_assoc] at hcontra
      have hzero : (s.begin_ptr_ + (1 + i)) % s.max_capacity_ =
          (s.begin_ptr_ + 0) % s.max_capacity_ := by
        rw [Nat.add_zero, Nat.mod_eq_of_lt hb]
        exact hcontra
      have := slot_inj s.max_capacity_ s.begin_ptr_ (1 + i) 0
        (by omega) (by omega) hzero
      omega
  · show [writeSlot s.buffer_ s.begin_ptr_ v
        (((s.begin_ptr_ + 1) % s.max_capacity_ + n) % s.max_capacity_)] = [v]
    unfold writeSlot
    rw [Nat.mod_add_mod,
        show s.begin_ptr_ + 1 + n = s.begin_ptr_ + s.max_capacity_ from by omega,
        Nat.add_mod_right, Nat.mod_eq_of_lt hb, if_pos rfl]

theorem push_back_current_size_nonfull (s : ring_buffer α) (v : α)
    (hlt : s.current_size_ < s.max_capacity_) (h1 : 1 ≤ s.max_capacity_) :
    (push_back s v).current_size_ = s.current_size_ + 1 := by
  rcases Nat.eq_zero_or_pos s.current_size_ with hz | hpos
  · rw [push_back_zero s v hz h1, hz]
  · rw [push_back_grow s v hpos hlt]

theorem push_back_current_size_full (s : ring_buffer α) (v : α)
    (hfull : s.current_size_ = s.max_capacity_) (h1 : 1 ≤ s.max_capacity_) :
    (push_back s v).current_size_ = s.current_size_ := by
  rw [push_back_full s v hfull h1]

theorem push_back_max_capacity (s : ring_buffer α) (v : α) :
    (push_back s v).max_capacity_ = s.max_capacity_ :=
  (add_back_fields s).1

/-- Contents after pushing a whole list at the back: the last `capacity` entries
of the old contents followed by the pushed values. -/
theorem toList_foldl_push_back (l : List α) (s : ring_buffer α) (h : CursorInv s) :
    toList (l.foldl push_back s) =
      (toList s ++ l).drop (s.current_size_ + l.length - s.max_capacity_) := by
  induction l generalizing s with
  | nil =>
    have hsc := h.1.2.2.2
    have h0 : s.current_size_ + ([] : List α).length - s.max_capacity_ = 0 := by
      simp only [List.length_nil]
      omega
    rw [h0, List.foldl_nil, List.append_nil, List.drop_zero]
  | cons v l ih =>
    have h1 := h.1.1
    have hsc := h.1.2.2.2
    have h' := cursorInv_push_back s v h
    rw [List.foldl_cons, ih (push_back s v) h', push_back_max_capacity s v]
    rcases Nat.lt_or_ge s.current_size_ s.max_capacity_ with hlt | hge
    · rw [toList_push_back_nonfull s v h hlt,
          push_back_current_size_nonfull s v hlt h1,
          List.append_assoc, List.singleton_append]
      congr 1
      simp only [List.length_cons]
      omega
    · have hfull : s.current_size_ = s.max_capacity_ := by omega
      rw [toList_push_back_full s v h hfull,
          push_back_current_size_full s v hfull h1]
      have hlen : (toList s).length = s.max_capacity_ := by
        rw [toList_length, hfull]
      obtain ⟨hd, rest, hcons⟩ : ∃ hd rest, toList s = hd :: rest := by
        cases htl : toList s with
        | nil =>
          rw [htl] at hlen
          simp at hlen
          omega
        | cons a b => exact ⟨a, b, rfl⟩
      rw [hcons]
      have hrest : rest.length = s.max_capacity_ - 1 := by
        rw [hcons] at hlen
        simp at hlen
        omega
      simp only [List.drop_succ_cons, List.drop_zero, List.append_assoc,
                 List.singleton_append, List.cons_append, List.length_cons,
                 List.nil_append]
      have hidx1 : s.current_size_ + l.length - s.max_capacity_ = l.length := by omega
      have hidx2 : s.current_size_ + (l.length + 1) - s.max_capacity_ = l.length + 1 := by
        omega
      rw [hidx1, hidx2, List.drop_succ_cons]

theorem walk_right_eq_mod (s : ring_buffer α) (p k : Nat)
    (h1 : 1 ≤ s.max_capacity_) (hp : p < s.max_capacity_) :
    walk_right s p k = (p + k) % s.max_capacity_ := by
  induction k with
  | zero =>
    show p = (p + 0) % s.max_capacity_
    rw [Nat.add_zero, Nat.mod_eq_of_lt hp]
  | succ k ih =>
    show (advance_ptr_right s)^[k + 1] p = (p + (k + 1)) % s.max_capacity_
    rw [Function.iterate_succ_apply']
    have hwk : (advance_ptr_right s)^[k] p = (p + k) % s.max_capacity_ := ih
    rw [hwk, advance_ptr_right_eq_mod s h1 (Nat.mod_lt _ (by omega)), Nat.mod_add_mod,
        Nat.add_assoc]

theorem foldl_push_back_max_capacity (l : List α) (t : ring_buffer α) :
    (l.foldl push_back t).max_capacity_ = t.max_capacity_ := by
  induction l generalizing t with
  | nil => rfl
  | cons v l ih => rw [List.foldl_cons, ih (push_back t v), push_back_max_capacity]

/-! ### Claims -/

/-- C1: on a full buffer (`size == capacity`, capacity ≥ 1), `push_back(v)`
advances the end cursor one slot right with wraparound, writes `v` into the new
end slot, destroys the current front element, advances the begin cursor one
slot right, and leaves the size at capacity; consequently pushing the values
`0..C` (that is, `C+1` pushes) into a freshly constructed buffer of capacity
`C` yields logical contents `[1, 2, ..., C]` with size `C`. -/
theorem C1_full_push_back_evicts_front :
    (∀ (α : Type) [Inhabited α], ∀ (s : ring_buffer α) (v : α), SizeInv s →
      s.current_size_ = s.max_capacity_ →
        (push_back s v).end_ptr_ = (s.end_ptr_ + 1) % s.max_capacity_ ∧
        (push_back s v).buffer_ ((push_back s v).end_ptr_) = v ∧
        (push_back s v).destroyed = s.destroyed ++ [s.buffer_ s.begin_ptr_] ∧
        (push_back s v).begin_ptr_ = (s.begin_ptr_ + 1) % s.max_capacity_ ∧
        size (push_back s v) = capacity s) ∧
    (∀ C : Nat, 1 ≤ C →
      toList ((List.range (C + 1)).foldl push_back (init Nat C)) =
        (List.range C).map (fun i => i + 1) ∧
      size ((List.range (C + 1)).foldl push_back (init Nat C)) = C) := by
  constructor
  · intro α _ s v hs hfull
    obtain ⟨h1, hb, he, hsc⟩ := hs
    rw [push_back_full s v hfull h1]
    refine ⟨advance_ptr_right_eq_mod s h1 he, ?_, rfl,
            advance_ptr_right_eq_mod s h1 hb, hfull⟩
    simp [writeSlot]
  · intro C hC
    have hinit := cursorInv_init (α := Nat) hC
    have htl : toList ((List.range (C + 1)).foldl push_back (init Nat C)) =
        (List.range C).map (fun i => i + 1) := by
      rw [toList_foldl_push_back (List.range (C + 1)) (init Nat C) hinit]
      show (([] : List Nat) ++ List.range (C + 1)).drop
          (0 + (List.range (C + 1)).length - C) = _
      simp only [List.nil_append, List.length_range]
      rw [show 0 + (C + 1) - C = 1 from by omega, List.range_succ_eq_map,
          List.drop_succ_cons, List.drop_zero]
    refine ⟨htl, ?_⟩
    have hlen := toList_length ((List.range (C + 1)).foldl push_back (init Nat C))
    rw [htl] at hlen
    simp only [List.length_map, List.length_range] at hlen
    show ((List.range (C + 1)).foldl push_back (init Nat C)).current_size_ = C
    omega

theorem C1_full_push_back_evicts_front_witness :
    (SizeInv (push_back (init Nat 1) 5) ∧
     (push_back (init Nat 1) 5).current_size_ = (push_back (init Nat 1) 5).max_capacity_ ∧
     (push_back (push_back (init Nat 1) 5) 7).destroyed =
       (push_back (init Nat 1) 5).destroyed ++
         [(push_back (init Nat 1) 5).buffer_ (push_back (init Nat 1) 5).begin_ptr_] ∧
     size (push_back (push_back (init Nat 1) 5) 7) = capacity (push_back (init Nat 1) 5)) ∧
    (1 ≤ 3 ∧
     toList ((List.range 4).foldl push_back (init Nat 3)) =
       (List.range 3).map (fun i => i + 1)) := by
  have h := C1_full_push_back_evicts_front
  refine ⟨⟨by decide, by decide, ?_, ?_⟩, by decide, ?_⟩
  · exact (h.1 Nat (push_back (init Nat 1) 5) 7 (by decide) (by decide)).2.2.1
  · exact (h.1 Nat (push_back (init Nat 1) 5) 7 (by decide) (by decide)).2.2.2.2
  · exact (h.2 3 (by decide)).1

/-- C2: `at(index)` fails with the bounds error exactly when `index >= size`
(including on a freshly constructed, empty buffer); `front()` and `back()`
route through `at` uniformly, so on an empty buffer both fail with the same
bounds error; and for `index < size` the checked access returns the element at
physical slot `(begin-offset + index) mod capacity`. -/
theorem C2_at_bounds_checked :
    ∀ (α : Type) [Inhabited α], ∀ (s : ring_buffer α) (idx : Nat),
      (s.current_size_ ≤ idx →
        atIdx s idx = .error "ring_buffer index out-of-bounds in at") ∧
      front s = atIdx s 0 ∧
      back s = atIdx s (if s.current_size_ = 0 then 0 else s.current_size_ - 1) ∧
      (s.current_size_ = 0 →
        front s = .error "ring_buffer index out-of-bounds in at" ∧
        back s = .error "ring_buffer index out-of-bounds in at") ∧
      (idx < s.current_size_ →
        atIdx s idx = .ok (s.buffer_ ((s.begin_ptr_ + idx) % s.max_capacity_))) := by
  intro α _ s idx
  have herr : ∀ j, s.current_size_ ≤ j →
      atIdx s j = .error "ring_buffer index out-of-bounds in at" := by
    intro j hj
    unfold atIdx assert_idx
    rw [if_pos hj]
    rfl
  refine ⟨herr idx, rfl, rfl, ?_, ?_⟩
  · intro hz
    constructor
    · exact herr 0 (by omega)
    · show atIdx s (if s.current_size_ = 0 then 0 else s.current_size_ - 1) = _
      rw [if_pos hz]
      exact herr 0 (by omega)
  · intro hlt
    unfold atIdx assert_idx unchecked_ptr_from_idx
    rw [if_neg (by omega)]

theorem C2_at_bounds_checked_witness :
    ((push_back (init Nat 2) 9).current_size_ ≤ 1 ∧
     atIdx (push_back (init Nat 2) 9) 1 = .error "ring_buffer index out-of-bounds in at") ∧
    ((init Nat 2).current_size_ = 0 ∧
     front (init Nat 2) = .error "ring_buffer index out-of-bounds in at" ∧
     back (init Nat 2) = .error "ring_buffer index out-of-bounds in at") ∧
    (0 < (push_back (init Nat 2) 9).current_size_ ∧
     atIdx (push_back (init Nat 2) 9) 0 =
       .ok ((push_back (init Nat 2) 9).buffer_
         (((push_back (init Nat 2) 9).begin_ptr_ + 0) %
           (push_back (init Nat 2) 9).max_capacity_))) := by
  have h := C2_at_bounds_checked
  refine ⟨⟨by decide, ?_⟩, ⟨by decide, ?_⟩, ⟨by decide, ?_⟩⟩
  · exact (h Nat (push_back (init Nat 2) 9) 1).1 (by decide)
  · exact (h Nat (init Nat 2) 0).2.2.2.1 (by decide)
  · exact (h Nat (push_back (init Nat 2) 9) 0).2.2.2.2 (by decide)

/-- C4 counterexample: on a capacity-1 buffer holding one element, the end
sentinel (logical index `size`) makes checked `operator*` fail, but
`operator->` (both variants) succeeds and yields a slot value — it does not
delegate to the checked `at`, refuting the claim that both dereference forms
fail with the bounds error. -/
theorem C4_arrow_is_unchecked_counterexample :
    iter_star (push_back (init Nat 1) 5) (end_it (push_back (init Nat 1) 5)) =
      .error "ring_buffer index out-of-bounds in at" ∧
    iter_arrow (push_back (init Nat 1) 5) (end_it (push_back (init Nat 1) 5)) = .ok 5 ∧
    iter_arrow_const (push_back (init Nat 1) 5) (end_it (push_back (init Nat 1) 5)) =
      .ok 5 :=
  ⟨rfl, rfl, rfl⟩

/-- C4 (amended): `operator*` (mutable and const) delegates to the container's
checked `at(index)` and fails with the bounds error for every `index >= size`
(in particular at the end sentinel), but `operator->` (both variants) performs
no bounds check: it returns the pointer obtained by the unchecked slot
translation `(begin-offset + index) mod capacity`, succeeding even out of
range. -/
theorem C4_deref_amended :
    ∀ (α : Type) [Inhabited α], ∀ (s : ring_buffer α) (idx : Nat),
      s.current_size_ ≤ idx →
        iter_star s idx = .error "ring_buffer index out-of-bounds in at" ∧
        iter_star_const s idx = .error "ring_buffer index out-of-bounds in at" ∧
        iter_arrow s idx = .ok (s.buffer_ ((s.begin_ptr_ + idx) % s.max_capacity_)) ∧
        iter_arrow_const s idx =
          .ok (s.buffer_ ((s.begin_ptr_ + idx) % s.max_capacity_)) := by
  intro α _ s idx hge
  have herr : atIdx s idx = .error "ring_buffer index out-of-bounds in at" := by
    unfold atIdx assert_idx
    rw [if_pos hge]
    rfl
  exact ⟨herr, herr, rfl, rfl⟩

theorem C4_deref_amended_witness :
    ((init Nat 1).current_size_ ≤ 0 ∧
     iter_star (init Nat 1) 0 = .error "ring_buffer index out-of-bounds in at" ∧
     iter_arrow (init Nat 1) 0 =
       .ok ((init Nat 1).buffer_
         (((init Nat 1).begin_ptr_ + 0) % (init Nat 1).max_capacity_))) := by
  have h := C4_deref_amended Nat (init Nat 1) 0 (by decide)
  exact ⟨by decide, h.1, h.2.2.1⟩

/-- C5 counterexample: the claim says every capacity with
`1 <= capacity <= SIZE_MAX/2` is accepted, but the constructor (line 52)
rejects `capacity >= SIZE_MAX/2`, so the boundary value
`capacity = SIZE_MAX/2` is rejected even though it satisfies the claimed
acceptance condition. -/
theorem C5_boundary_capacity_counterexample :
    ¬ ((∃ s : ring_buffer Nat, ring_buffer_new Nat (SIZE_MAX / 2) = .ok s) ↔
        (1 ≤ SIZE_MAX / 2 ∧ SIZE_MAX / 2 ≤ SIZE_MAX / 2)) := by
  intro hiff
  obtain ⟨s, hs⟩ := hiff.mpr ⟨by norm_num [SIZE_MAX], le_rfl⟩
  rw [show ring_buffer_new Nat (SIZE_MAX / 2) =
      .error "ring_buffer: exceeded limit std::size_t max / 2" from rfl] at hs
  exact Except.noConfusion hs

/-- C5 (amended): construction succeeds exactly when
`1 <= capacity < SIZE_MAX/2` (the code rejects `capacity >= SIZE_MAX/2`, so
the boundary `SIZE_MAX/2` itself is a configuration error); on success the new
buffer has `size() == 0` and `capacity()` equal to the requested capacity. -/
theorem C5_ctor_amended :
    ∀ (α : Type) [Inhabited α], ∀ (c : Nat),
      ((∃ s : ring_buffer α, ring_buffer_new α c = .ok s) ↔
        (1 ≤ c ∧ c < SIZE_MAX / 2)) ∧
      (∀ s : ring_buffer α, ring_buffer_new α c = .ok s →
        size s = 0 ∧ capacity s = c) := by
  intro α _ c
  unfold ring_buffer_new ctor_check
  by_cases hc0 : c = 0
  · rw [if_pos hc0]
    refine ⟨⟨fun ⟨s, hs⟩ => Except.noConfusion hs, fun hcl => absurd hc0 (by omega)⟩,
            fun s hs => Except.noConfusion hs⟩
  · rw [if_neg hc0]
    by_cases hcb : SIZE_MAX / 2 ≤ c
    · rw [if_pos hcb]
      refine ⟨⟨fun ⟨s, hs⟩ => Except.noConfusion hs, fun hcl => by omega⟩,
              fun s hs => Except.noConfusion hs⟩
    · rw [if_neg hcb]
      refine ⟨⟨fun _ => ⟨by omega, by omega⟩, fun _ => ⟨init α c, rfl⟩⟩, ?_⟩
      intro s hs
      have hsi : init α c = s := by
        injection hs
      rw [← hsi]
      exact ⟨rfl, rfl⟩

theorem C5_ctor_amended_witness :
    ((∃ s : ring_buffer Nat, ring_buffer_new Nat 7 = .ok s) ↔
      (1 ≤ 7 ∧ 7 < SIZE_MAX / 2)) ∧
    (ring_buffer_new Nat 7 = .ok (init Nat 7) ∧
     size (init Nat 7) = 0 ∧ capacity (init Nat 7) = 7) := by
  have h := C5_ctor_amended Nat 7
  exact ⟨h.1, rfl, h.2 (init Nat 7) rfl⟩

/-- C6 counterexample: after a single `push_back` into a fresh capacity-2
buffer, walking `size` (= 1) slots rightward from the begin cursor lands one
slot past the end cursor (both cursors still sit on slot 0), refuting the
claimed begin/end relation. -/
theorem C6_walk_size_counterexample :
    walk_right (run (init Nat 2) [Op.push_back 0])
        (run (init Nat 2) [Op.push_back 0]).begin_ptr_
        (size (run (init Nat 2) [Op.push_back 0])) ≠
      (run (init Nat 2) [Op.push_back 0]).end_ptr_ := by
  decide

/-- C6 (amended): in every state reachable from construction by `push_back`,
`emplace_back`, `push_front`, `emplace_front` and `clear` (the two pop members
cannot compile as written, see C10), walking `size - 1` slots rightward with
wraparound from the begin cursor reaches the end cursor — both cursors are
inclusive, so they are `size - 1` (not `size`) slots apart; on an empty buffer
the two cursors coincide and the walk of `0 - 1 = 0` slots likewise reaches the
end cursor. -/
theorem C6_cursor_walk_amended :
    ∀ (α : Type) [Inhabited α], ∀ (cap : Nat) (ops : List (Op α)), 1 ≤ cap →
      ops.all (fun op => !op.isPop) = true →
      walk_right (run (init α cap) ops) (run (init α cap) ops).begin_ptr_
          (size (run (init α cap) ops) - 1) =
        (run (init α cap) ops).end_ptr_ := by
  intro α _ cap ops h1 hnp
  obtain ⟨⟨h1r, hb, he, hsc⟩, hz0, hpos0⟩ :=
    cursorInv_run (init α cap) ops (cursorInv_init h1) hnp
  rw [walk_right_eq_mod _ _ _ h1r hb]
  rcases Nat.eq_zero_or_pos (run (init α cap) ops).current_size_ with hz | hpos
  · show ((run (init α cap) ops).begin_ptr_ +
        ((run (init α cap) ops).current_size_ - 1)) % (run (init α cap) ops).max_capacity_ =
      (run (init α cap) ops).end_ptr_
    rw [hz, Nat.zero_sub, Nat.add_zero, Nat.mod_eq_of_lt hb]
    exact hz0 hz
  · exact (hpos0 hpos).symm

theorem C6_cursor_walk_amended_witness :
    (1 ≤ 2 ∧
     ([Op.push_back 5, Op.push_front 7, Op.push_back 9] : List (Op Nat)).all
       (fun op => !op.isPop) = true) ∧
    walk_right (run (init Nat 2) [Op.push_back 5, Op.push_front 7, Op.push_back 9])
        (run (init Nat 2) [Op.push_back 5, Op.push_front 7, Op.push_back 9]).begin_ptr_
        (size (run (init Nat 2) [Op.push_back 5, Op.push_front 7, Op.push_back 9]) - 1) =
      (run (init Nat 2) [Op.push_back 5, Op.push_front 7, Op.push_back 9]).end_ptr_ := by
  exact ⟨⟨by decide, by decide⟩,
    C6_cursor_walk_amended Nat 2 [Op.push_back 5, Op.push_front 7, Op.push_back 9]
      (by decide) (by decide)⟩

/-- C7: in every state reachable from construction by the public mutators
(pushes, emplaces, pops — modelled with their evident intended arguments, see
C10 — and `clear`), the size satisfies `0 <= size() <= capacity()`. -/
theorem C7_size_within_capacity :
    ∀ (α : Type) [Inhabited α], ∀ (cap : Nat) (ops : List (Op α)), 1 ≤ cap →
      0 ≤ size (run (init α cap) ops) ∧
      size (run (init α cap) ops) ≤ capacity (run (init α cap) ops) := by
  intro α _ cap ops h1
  exact ⟨Nat.zero_le _, (sizeInv_run (init α cap) ops (sizeInv_init h1)).2.2.2⟩

theorem C7_size_within_capacity_witness :
    (1 ≤ 2 ∧
     0 ≤ size (run (init Nat 2)
       [Op.push_back 1, Op.push_back 2, Op.push_back 3, Op.pop_front,
        Op.push_front 4, Op.clear, Op.push_back 6, Op.pop_back]) ∧
     size (run (init Nat 2)
       [Op.push_back 1, Op.push_back 2, Op.push_back 3, Op.pop_front,
        Op.push_front 4, Op.clear, Op.push_back 6, Op.pop_back]) ≤
       capacity (run (init Nat 2)
       [Op.push_back 1, Op.push_back 2, Op.push_back 3, Op.pop_front,
        Op.push_front 4, Op.clear, Op.push_back 6, Op.pop_back])) := by
  have h := C7_size_within_capacity Nat 2
    [Op.push_back 1, Op.push_back 2, Op.push_back 3, Op.pop_front,
     Op.push_front 4, Op.clear, Op.push_back 6, Op.pop_back] (by decide)
  exact ⟨by decide, h.1, h.2⟩

/-- C8: on a fresh capacity-10 buffer, `push_front(2*i)` then `push_back(2*i+1)`
for `i = 0..4` yields logical contents `[8, 6, 4, 2, 0, 1, 3, 5, 7, 9]`. -/
theorem C8_interleaved_pushes :
    toList (run (init Nat 10)
      [Op.push_front 0, Op.push_back 1, Op.push_front 2, Op.push_back 3,
       Op.push_front 4, Op.push_back 5, Op.push_front 6, Op.push_back 7,
       Op.push_front 8, Op.push_back 9]) = [8, 6, 4, 2, 0, 1, 3, 5, 7, 9] := by
  decide

/-- C3: the scenario of the repository's destructor test (capacity 2, three
`emplace_back` calls) followed by container destruction.  The eviction runs
exactly one destructor (on the first value), as the claim says; but
`~ring_buffer` (lines 94-97) only deallocates the block — it runs no element
destructor — so the complete lifetime destructor log is still `[10]` although
the two elements `[20, 30]` were live at destruction.  The claim's
"at container destruction every remaining live element is destroyed" is
exactly what the destructor fails to do. -/
theorem C3_no_destructor_calls_at_destruction :
    size (run (init Nat 2) [Op.emplace_back 10, Op.emplace_back 20, Op.emplace_back 30]) =
      2 ∧
    toList (run (init Nat 2) [Op.emplace_back 10, Op.emplace_back 20, Op.emplace_back 30]) =
      [20, 30] ∧
    (run (init Nat 2)
      [Op.emplace_back 10, Op.emplace_back 20, Op.emplace_back 30]).destroyed = [10] ∧
    ring_buffer_destructor
      (run (init Nat 2) [Op.emplace_back 10, Op.emplace_back 20, Op.emplace_back 30]) =
      [10] := by
  refine ⟨by decide, by decide, by decide, by decide⟩

/-- C9: a copy constructed from any well-formed buffer `a` (any wraparound
state of its cursors) has the same capacity and the same front-to-back
contents as `a`.  The copy's storage is freshly allocated and written only by
the copy loop, so no later mutation of `a` can alter it — in this functional
embedding the copy is a value built from a fresh store, independent of `a` by
construction. -/
theorem C9_copy_preserves_contents :
    ∀ (α : Type) [Inhabited α], ∀ (a : ring_buffer α), CursorInv a →
      capacity (ring_buffer_copy a) = capacity a ∧
      toList (ring_buffer_copy a) = toList a := by
  intro α _ a h
  have h1 : 1 ≤ a.max_capacity_ := h.1.1
  have hsc : a.current_size_ ≤ a.max_capacity_ := h.1.2.2.2
  have hinit := cursorInv_init (α := α) h1
  constructor
  · show ((toList a).foldl push_back (init α a.max_capacity_)).max_capacity_ =
      a.max_capacity_
    rw [foldl_push_back_max_capacity]
    rfl
  · show toList ((toList a).foldl push_back (init α a.max_capacity_)) = toList a
    rw [toList_foldl_push_back (toList a) (init α a.max_capacity_) hinit]
    show (([] : List α) ++ toList a).drop (0 + (toList a).length - a.max_capacity_) =
      toList a
    rw [List.nil_append, toList_length, Nat.zero_add,
        Nat.sub_eq_zero_of_le hsc, List.drop_zero]

theorem C9_copy_preserves_contents_witness :
    (CursorInv (run (init Nat 3)
       [Op.push_back 1, Op.push_back 2, Op.push_back 3, Op.push_back 4]) ∧
     capacity (ring_buffer_copy (run (init Nat 3)
       [Op.push_back 1, Op.push_back 2, Op.push_back 3, Op.push_back 4])) =
       capacity (run (init Nat 3)
       [Op.push_back 1, Op.push_back 2, Op.push_back 3, Op.push_back 4]) ∧
     toList (ring_buffer_copy (run (init Nat 3)
       [Op.push_back 1, Op.push_back 2, Op.push_back 3, Op.push_back 4])) =
       toList (run (init Nat 3)
       [Op.push_back 1, Op.push_back 2, Op.push_back 3, Op.push_back 4])) ∧
    toList (run (init Nat 3)
      [Op.push_back 1, Op.push_back 2, Op.push_back 3, Op.push_back 4]) = [2, 3, 4] := by
  have h := C9_copy_preserves_contents Nat
    (run (init Nat 3) [Op.push_back 1, Op.push_back 2, Op.push_back 3, Op.push_back 4])
    (by decide)
  exact ⟨⟨by decide, h.1, h.2⟩, by decide⟩

/-- C10: behavior of `pop_front`/`pop_back` as described — on an empty buffer
they return `false` and leave the state entirely unchanged (no error); on a
non-empty buffer they destroy the front (resp. back) element, advance the
corresponding cursor inward one slot with wraparound, decrement the size, and
return `true`.  As written the source cannot compile when these members are
instantiated (`remove_advance_right()` / `remove_advance_left()` are called
with no argument, lines 183 and 200); this theorem is about the model with the
evidently intended cursor arguments (as at lines 498 and 518). -/
theorem C10_pop_modelled_behavior :
    ∀ (α : Type) [Inhabited α], ∀ (s : ring_buffer α), SizeInv s →
      (s.current_size_ = 0 → pop_front s = (false, s) ∧ pop_back s = (false, s)) ∧
      (1 ≤ s.current_size_ →
        (pop_front s).1 = true ∧
        (pop_front s).2.destroyed = s.destroyed ++ [s.buffer_ s.begin_ptr_] ∧
        (pop_front s).2.begin_ptr_ = (s.begin_ptr_ + 1) % s.max_capacity_ ∧
        (pop_front s).2.end_ptr_ = s.end_ptr_ ∧
        (pop_front s).2.current_size_ = s.current_size_ - 1 ∧
        (pop_back s).1 = true ∧
        (pop_back s).2.destroyed = s.destroyed ++ [s.buffer_ s.end_ptr_] ∧
        (pop_back s).2.end_ptr_ =
          (s.end_ptr_ + (s.max_capacity_ - 1)) % s.max_capacity_ ∧
        (pop_back s).2.begin_ptr_ = s.begin_ptr_ ∧
        (pop_back s).2.current_size_ = s.current_size_ - 1) := by
  intro α _ s hs
  obtain ⟨h1, hb, he, hsc⟩ := hs
  constructor
  · intro hz
    exact ⟨pop_front_zero s hz, pop_back_zero s hz⟩
  · intro hpos
    rw [pop_front_pos s hpos, pop_back_pos s hpos]
    exact ⟨rfl, rfl, advance_ptr_right_eq_mod s h1 hb, rfl, rfl,
           rfl, rfl, advance_ptr_left_eq_mod s h1 he, rfl, rfl⟩

theorem C10_pop_modelled_behavior_witness :
    (SizeInv (init Nat 2) ∧ (init Nat 2).current_size_ = 0 ∧
     pop_front (init Nat 2) = (false, init Nat 2) ∧
     pop_back (init Nat 2) = (false, init Nat 2)) ∧
    (SizeInv (push_back (init Nat 2) 4) ∧ 1 ≤ (push_back (init Nat 2) 4).current_size_ ∧
     (pop_front (push_back (init Nat 2) 4)).1 = true ∧
     (pop_front (push_back (init Nat 2) 4)).2.destroyed =
       (push_back (init Nat 2) 4).destroyed ++
         [(push_back (init Nat 2) 4).buffer_ (push_back (init Nat 2) 4).begin_ptr_]) := by
  have h0 := C10_pop_modelled_behavior Nat (init Nat 2) (by decide)
  have h1 := C10_pop_modelled_behavior Nat (push_back (init Nat 2) 4) (by decide)
  exact ⟨⟨by decide, by decide, (h0.1 (by decide)).1, (h0.1 (by decide)).2⟩,
         ⟨by decide, by decide, (h1.2 (by decide)).1, (h1.2 (by decide)).2.1⟩⟩

end jmonticelli
